import Mathlib

/-!
Shallow embedding of the credential pool + fallback router of the
LLM gateway (`project/core/llm_gateway/`): `key_manager.py` (the
`ApiKeyManager` class), `gateway.py` (the `LLMGateway.call` loop) and
`config.py` (the model registry and model groups).

The embedding is sequential: every `await` point is modelled as the
immediate state transformation the code performs there.  Machine state
is passed explicitly.  Python dictionaries keyed by strings are modelled
as association lists in insertion order, and `asyncio.Queue` as a Lean
list whose head is the front of the queue.
-/

namespace LLMGW

/-- A provider pool, i.e. the contents of the `asyncio.Queue` stored at
`self._providers[provider]["keys"]` in `key_manager.py`: head = front of
the queue (next key handed out), new keys are appended at the back. -/
abbrev Pool := List String

/-- The `self._providers` dictionary of `ApiKeyManager`: provider name to
pool, in insertion order.  (The `"quarantine"` dict of the source is
always empty -- nothing ever writes to it -- so it is omitted.) -/
abbrev Providers := List (String × Pool)

/-- Dictionary lookup `self._providers.get(p)` / `p in self._providers`. -/
def lookupProvider (st : Providers) (p : String) : Option Pool :=
  (st.find? (fun e => e.1 == p)).map (fun e => e.2)

/-- Dictionary assignment `self._providers[p] = q`: updates the entry in
place if the key is present, otherwise appends it (Python dict order). -/
def setProvider : Providers → String → Pool → Providers
  | [], p, q => [(p, q)]
  | (p1, q1) :: rest, p, q =>
      if p1 == p then (p, q) :: rest else (p1, q1) :: setProvider rest p q

/-- `list(dict.fromkeys(keys))` from
`ApiKeyManager._load_keys_from_provider_env_files`: deduplication keeping
the first occurrence of each key, in order.  `seen` is the set of keys
already inserted into the dict. -/
def dedupFirstAux (seen : List String) : List String → List String
  | [] => []
  | k :: rest =>
      if k ∈ seen then dedupFirstAux seen rest
      else k :: dedupFirstAux (k :: seen) rest

/-- `unique_keys = list(dict.fromkeys(keys))`. -/
def dedupFirst (l : List String) : List String := dedupFirstAux [] l

/-- One provider-file iteration of
`ApiKeyManager._load_keys_from_provider_env_files`, after the file has
been read and parsed: `keys` is the comma-split, stripped, non-empty
fragments of the matched `*_API_KEYS="..."` line (empty when the regex
did not match or every fragment was blank).  The source registers the
provider and enqueues `unique_keys` only under `if keys:`; otherwise the
providers dict is left untouched. -/
def load_provider_keys (st : Providers) (provider : String) (keys : List String) :
    Providers :=
  if keys = [] then st
  else
    let uniqueKeys := dedupFirst keys
    let q := (lookupProvider st provider).getD []
    setProvider st provider (q ++ uniqueKeys)

/-- `ApiKeyManager.get_available_providers`:
`list(self._providers.keys())`. -/
def get_available_providers (st : Providers) : List String :=
  st.map (fun e => e.1)

/-- The two exceptions of `key_manager.py`: `NoKeysAvailableError`
(raised when the provider is unknown or its queue is empty at entry) and
`GetKeyTimeoutError` (the `asyncio.wait_for` timeout). -/
inductive KeyError where
  | poolEmpty
  | timeout
  deriving DecidableEq, Repr

/-- `ApiKeyManager.get_key`.  The source raises `NoKeysAvailableError`
when `provider not in self._providers or self._providers[provider]["keys"].empty()`;
otherwise it awaits `queue.get()` under a 30-second `asyncio.wait_for`.
In the sequential model a non-empty queue yields its front element
immediately, so the timeout branch (`KeyError.timeout`) is unreachable
here; it is reachable in the real program only through the race the
source comments on. -/
def get_key (st : Providers) (p : String) : Except KeyError (String × Providers) :=
  match lookupProvider st p with
  | none => .error .poolEmpty
  | some [] => .error .poolEmpty
  | some (k :: rest) => .ok (k, setProvider st p rest)

/-- `ApiKeyManager.release_key`.  Unknown provider: silent return.
`is_permanently_invalid = true`: only a log line is printed, the queue is
untouched (the key is dropped from circulation).  Otherwise the key is
`put` at the back of the queue. -/
def release_key (st : Providers) (p k : String) (isPermanentlyInvalid : Bool) :
    Providers :=
  match lookupProvider st p with
  | none => st
  | some q => if isPermanentlyInvalid then st else setProvider st p (q ++ [k])

/-- `sub.isPrefixOf hay` for character lists, written out. -/
def charsPfx : List Char → List Char → Bool
  | [], _ => true
  | _ :: _, [] => false
  | a :: as, b :: bs => a == b && charsPfx as bs

/-- Python substring containment `sub in hay` on character lists. -/
def charsContains (sub : List Char) : List Char → Bool
  | [] => sub.isEmpty
  | c :: rest => charsPfx sub (c :: rest) || charsContains sub rest

/-- Python `sub in hay` for strings. -/
def strContains (hay sub : String) : Bool :=
  charsContains sub.data hay.data

/-- Python `str.lower()` (ASCII-faithful, which covers every message the
heuristic is applied to). -/
def pyLower (s : String) : String :=
  ⟨s.data.map Char.toLower⟩

/-- The auth-failure heuristic of `LLMGateway.call` (gateway.py):
`is_auth_error = "401" in str(e) or "403" in str(e) or "API key" in str(e).lower()`.
Note the third disjunct tests the *unlowered* literal `"API key"` against
the *lowered* message. -/
def is_auth_error (msg : String) : Bool :=
  strContains msg "401" || strContains msg "403" ||
    strContains (pyLower msg) "API key"

/-- The classification the spec describes: the message contains `"401"`,
`"403"`, or the substring `"api key"` matched case-insensitively.  Stated
from the spec's words, for comparison with `is_auth_error`. -/
def specAuthClassification (msg : String) : Bool :=
  strContains msg "401" || strContains msg "403" ||
    strContains (pyLower msg) (pyLower "API key")

/-- One entry of `MODELS_REGISTRY` (config.py): the `provider` field, the
optional `mode` field, and the `description` field. -/
structure ModelCfg where
  provider : String
  mode : Option String
  description : String
  deriving DecidableEq, Repr

/-- `MODELS_REGISTRY` from `config.py`. -/
def MODELS_REGISTRY : List (String × ModelCfg) :=
  [("gemini-3-pro-preview", ⟨"google", some "reasoning", "Gemini 3 Pro Preview."⟩),
   ("gemini-2.5-pro", ⟨"google", some "reasoning", "Gemini 2.5 Pro."⟩),
   ("gemini-2.5-pro-preview-06-05", ⟨"google", some "reasoning", "Gemini 2.5 Pro Preview (June)."⟩),
   ("gemini-2.5-pro-preview-05-06", ⟨"google", some "reasoning", "Gemini 2.5 Pro Preview (May)."⟩),
   ("gemini-2.5-pro-preview-03-25", ⟨"google", some "reasoning", "Gemini 2.5 Pro Preview (March)."⟩),
   ("gemini-pro-latest", ⟨"google", some "reasoning", "Alias for latest Pro."⟩),
   ("gemini-2.0-pro-exp", ⟨"google", some "reasoning", "Gemini 2.0 Pro Experimental."⟩),
   ("gemini-2.0-pro-exp-02-05", ⟨"google", some "reasoning", "Gemini 2.0 Pro Exp (Feb)."⟩),
   ("gemini-exp-1206", ⟨"google", some "reasoning", "Gemini Experimental 1206."⟩),
   ("gemini-2.5-flash", ⟨"google", some "reasoning", "Gemini 2.5 Flash."⟩),
   ("gemini-flash-latest", ⟨"google", some "reasoning", "Alias for latest Flash."⟩),
   ("gemini-2.0-flash", ⟨"google", some "reasoning", "Gemini 2.0 Flash."⟩),
   ("gemini-2.0-flash-thinking-exp", ⟨"google", some "reasoning", "Gemini 2.0 Flash Thinking."⟩),
   ("gemini-2.0-flash-thinking-exp-01-21", ⟨"google", some "reasoning", "Gemini 2.0 Flash Thinking (Jan)."⟩),
   ("gemini-2.0-flash-lite", ⟨"google", some "reasoning", "Gemini 2.0 Flash Lite."⟩),
   ("gemini-flash-lite-latest", ⟨"google", some "reasoning", "Alias for latest Flash Lite."⟩),
   ("gemma-3-27b-it", ⟨"google", none, "Gemma 3 27B Instruct."⟩),
   ("gemma-3-12b-it", ⟨"google", none, "Gemma 3 12B Instruct."⟩),
   ("codestral-2501", ⟨"mistral", none, "Mistral Codestral 2501."⟩),
   ("mistral-large-2411", ⟨"mistral", none, "Mistral Large 2."⟩),
   ("mistral-small-2501", ⟨"mistral", none, "Mistral Small 3."⟩),
   ("open-mistral-7b", ⟨"mistral", none, "Mistral 7B."⟩),
   ("gpt-oss-120b", ⟨"cerebras", none, "GPT-OSS 120B."⟩),
   ("llama-3.3-70b", ⟨"cerebras", none, "Llama 3.3 70B via Cerebras."⟩),
   ("llama-3.1-8b", ⟨"cerebras", none, "Llama 3.1 8B via Cerebras."⟩),
   ("llama-3.1-8b-instant", ⟨"groq", none, "Llama 3.1 8B Instant via Groq."⟩),
   ("llama-3.3-70b-versatile", ⟨"groq", none, "Llama 3.3 70B Versatile via Groq."⟩),
   ("command-r-plus-08-2024", ⟨"cohere", none, "Command R+."⟩),
   ("command-r7b-12-2024", ⟨"cohere", none, "Command R7B."⟩)]

/-- `MODEL_GROUPS` from `config.py`. -/
def MODEL_GROUPS : List (String × List String) :=
  [("enhanced_coding",
    ["gemini-2.5-pro", "gemini-3-pro-preview", "gemini-2.5-pro-preview-06-05",
     "gemini-2.5-pro-preview-05-06", "mistral-large-2411", "codestral-2501",
     "gemini-2.5-flash"]),
   ("enhanced_reasoning", ["gemini-2.5-pro", "mistral-large-2411", "gpt-oss-120b"]),
   ("librarian_group",
    ["gemini-2.5-flash", "gemini-pro-latest", "command-r-plus-08-2024"]),
   ("classic_coding",
    ["gpt-oss-120b", "gemini-flash-latest", "llama-3.3-70b-versatile",
     "llama-3.1-8b-instant"]),
   ("classic_reasoning",
    ["llama-3.3-70b", "gpt-oss-120b", "gemini-2.5-flash-lite", "mistral-small-2501"]),
   ("classic_secondary_reasoning", ["gpt-oss-120b", "llama-3.3-70b"]),
   ("weak_coding", ["llama-3.1-8b-instant", "open-mistral-7b"]),
   ("weak_reasoning", ["llama-3.1-8b-instant", "open-mistral-7b"]),
   ("coding_model_group", ["gemini-2.5-pro", "codestral-2501"]),
   ("reasoning_model_group", ["gemini-2.5-pro", "mistral-large-2411"])]

/-- `get_model_config` (config.py): `MODELS_REGISTRY.get(model_name)`. -/
def get_model_config (modelName : String) : Option ModelCfg :=
  (MODELS_REGISTRY.find? (fun e => e.1 == modelName)).map (fun e => e.2)

/-- `get_model_group` (config.py): `MODEL_GROUPS.get(group_name, [])`. -/
def get_model_group (groupName : String) : List String :=
  ((MODEL_GROUPS.find? (fun e => e.1 == groupName)).map (fun e => e.2)).getD []

/-- The keys of `PROVIDER_MAP` in gateway.py (the per-provider client
classes themselves are external network code and are abstracted by the
oracle below). -/
def PROVIDER_MAP_KEYS : List String :=
  ["google", "mistral", "groq", "cohere", "cerebras"]

/-- Result of one `client.make_request(**call_params)` network call: the
provider clients are external collaborators, abstracted by an oracle
mapping (model name, api key) to either a response text or a raised
exception carrying a message. -/
inductive CallOutcome where
  | success (text : String)
  | raiseMsg (msg : String)
  deriving DecidableEq, Repr

/-- An oracle standing for the external provider clients. -/
abbrev Oracle := String → String → CallOutcome

/-- The `ValueError` message raised by `LLMGateway.call` when
`PROVIDER_MAP.get(provider)` is `None` (quotes around the provider name
elided; they contain none of the substrings the auth heuristic tests). -/
def unsupportedMsg (provider : String) : String :=
  "Provider " ++ provider ++ " not supported."

/-- What one iteration of the `for model_name in model_priority_list`
loop of `LLMGateway.call` does, as observed from outside the iteration:
`skip` = `continue` with no state change and no `last_error` update
(unknown model, or provider not in `available_providers`);
`keyFail` = `get_key` raised (caught by the first `except`, no key held,
`last_error` updated); `fail` = the generic `except` ran (`last_error`
updated, the held key released with the auth flag); `ok` = success
(`release_key` then `return response`).  The `Providers` component is the
key-manager state after the iteration. -/
inductive AttemptOutcome where
  | skip
  | keyFail (e : KeyError) (st : Providers)
  | fail (msg : String) (st : Providers)
  | ok (text : String) (st : Providers)
  deriving DecidableEq, Repr

/-- One iteration of the loop body of `LLMGateway.call`, for model
`model`: look up `get_model_config`, check `available_providers`
(computed once before the loop and passed in as `avail`), `get_key`,
check `PROVIDER_MAP`, perform the network call, and release/retire per
the auth heuristic. -/
def attemptModel (oracle : Oracle) (avail : List String) (st : Providers)
    (model : String) : AttemptOutcome :=
  match get_model_config model with
  | none => .skip
  | some details =>
    let provider := details.provider
    if provider ∈ avail then
      match get_key st provider with
      | .error e => .keyFail e st
      | .ok (apiKey, st1) =>
        if provider ∈ PROVIDER_MAP_KEYS then
          match oracle model apiKey with
          | .success text => .ok text (release_key st1 provider apiKey false)
          | .raiseMsg msg =>
              .fail msg (release_key st1 provider apiKey (is_auth_error msg))
        else
          .fail (unsupportedMsg provider)
            (release_key st1 provider apiKey (is_auth_error (unsupportedMsg provider)))
    else .skip

/-- The `last_error` variable of `LLMGateway.call`: either one of the two
key-manager exceptions or a generic exception with its message. -/
inductive LastErr where
  | keyErr (e : KeyError)
  | excMsg (msg : String)
  deriving DecidableEq, Repr

/-- The errors `LLMGateway.call` can raise to its caller: the
`ValueError` for an unknown (or empty) model group, and the final
`Exception(f"Failed to get a response from any model in the group ...
Last error: {last_error}")` carrying `last_error` (`none` = every
candidate was skipped, so `last_error` was still `None`). -/
inductive GatewayError where
  | unknownGroup (g : String)
  | allExhausted (lastError : Option LastErr)
  deriving DecidableEq, Repr

/-- The `for` loop of `LLMGateway.call`: `last` is `last_error`, `n`
counts the `get_key` calls performed so far (for the zero-checkout
claims), `st` the key-manager state.  Returns the loop result (the
response text, or `.error last` standing for the final raise), the final
state and the final checkout count. -/
def callLoop (oracle : Oracle) (avail : List String) :
    Option LastErr → Providers → Nat → List String →
      Except (Option LastErr) String × Providers × Nat
  | last, st, n, [] => (.error last, st, n)
  | last, st, n, m :: ms =>
    match attemptModel oracle avail st m with
    | .skip => callLoop oracle avail last st n ms
    | .keyFail e st1 => callLoop oracle avail (some (.keyErr e)) st1 (n + 1) ms
    | .fail msg st1 => callLoop oracle avail (some (.excMsg msg)) st1 (n + 1) ms
    | .ok text st1 => (.ok text, st1, n + 1)

/-- `LLMGateway.call(model_group, prompt, **kwargs)` (gateway.py), with
the network abstracted by `oracle` and the key-manager state `st` passed
explicitly: resolve the group (`get_model_group`), raise `ValueError` if
the list is empty, compute `available_providers` once, then run the
candidate loop.  Returns also the final key-manager state and the number
of `get_key` calls performed. -/
def gateway_call (oracle : Oracle) (st : Providers) (modelGroup : String) :
    Except GatewayError String × Providers × Nat :=
  let modelPriorityList := get_model_group modelGroup
  if modelPriorityList.isEmpty then (.error (.unknownGroup modelGroup), st, 0)
  else
    let avail := get_available_providers st
    match callLoop oracle avail none st 0 modelPriorityList with
    | (.error last, st1, n) => (.error (.allExhausted last), st1, n)
    | (.ok text, st1, n) => (.ok text, st1, n)

/-- `call_params = {**model_details, **kwargs, "prompt": prompt,
"model_name": model_name}` from `LLMGateway.call`, as the lookup function
of the merged dictionary: a later key wins, and the two literal keys are
written last.  Dictionaries are modelled extensionally as partial maps
(`V` is the common value type).  Note that Python rejects a `"prompt"`
key in `kwargs` at the call site (`call(group, prompt, **kwargs)` would
raise `TypeError: multiple values for argument prompt`), so callers can
never actually supply one. -/
def call_params {V : Type} (modelDetails kwargs : String → Option V)
    (prompt modelName : V) : String → Option V :=
  fun k =>
    if k == "model_name" then some modelName
    else if k == "prompt" then some prompt
    else
      match kwargs k with
      | some v => some v
      | none => modelDetails k

/-!
Ghost-state view of one provider pool.  The source stores only the
`Available` queue (`asyncio.Queue`); the `CheckedOut` and `Retired`
states of the spec are the keys `get_key` has handed out and not yet seen
back, and the keys dropped by `release_key(..., is_permanently_invalid=True)`.
`ghostStep` performs exactly the queue transformation the code performs
(pop front / append at back / leave untouched) and additionally records
those two ghost sets; the correspondence with `get_key`/`release_key` is
proved in `ghostStep_matches_code` below.  A step whose precondition
fails (checkout from an empty queue; release/retire of a key that is not
currently checked out) returns `none`.
-/

/-- One provider pool with the ghost `checkedOut`/`retired` components
made explicit. -/
structure GhostPool where
  avail : List String
  checkedOut : List String
  retired : List String
  deriving DecidableEq, Repr

/-- The three pool operations: `checkout` = `get_key`, `release k` =
`release_key(p, k, False)`, `retire k` = `release_key(p, k, True)`. -/
inductive Op where
  | checkout
  | release (k : String)
  | retire (k : String)
  deriving DecidableEq, Repr

/-- One pool operation on the ghost state, `none` when its precondition
fails. -/
def ghostStep (s : GhostPool) : Op → Option GhostPool
  | .checkout =>
    match s.avail with
    | [] => none
    | k :: rest => some ⟨rest, k :: s.checkedOut, s.retired⟩
  | .release k =>
    if k ∈ s.checkedOut then
      some ⟨s.avail ++ [k], s.checkedOut.erase k, s.retired⟩
    else none
  | .retire k =>
    if k ∈ s.checkedOut then
      some ⟨s.avail, s.checkedOut.erase k, k :: s.retired⟩
    else none

/-- Run a sequence of pool operations from a ghost state. -/
def runOps (s : GhostPool) : List Op → Option GhostPool
  | [] => some s
  | op :: ops =>
    match ghostStep s op with
    | none => none
    | some s1 => runOps s1 ops

/-- The ghost state right after `_load_keys_from_provider_env_files`
loaded `keys` for a provider: the deduplicated keys are `Available`,
nothing is checked out or retired. -/
def initGhost (keys : List String) : GhostPool :=
  ⟨dedupFirst keys, [], []⟩

/-- The per-candidate outcome trace of the `LLMGateway.call` loop,
independent of the `last_error` accumulator: the loop stops at the first
successful attempt. -/
def attemptTrace (oracle : Oracle) (avail : List String) (st : Providers) :
    List String → List AttemptOutcome
  | [] => []
  | m :: ms =>
    match attemptModel oracle avail st m with
    | .skip => .skip :: attemptTrace oracle avail st ms
    | .keyFail e st1 => .keyFail e st1 :: attemptTrace oracle avail st1 ms
    | .fail msg st1 => .fail msg st1 :: attemptTrace oracle avail st1 ms
    | .ok t st1 => [.ok t st1]

/-- Whether an attempt outcome is a success. -/
def isOkOutcome : AttemptOutcome → Bool
  | .ok _ _ => true
  | _ => false

/-- Every attempt in the trace failed or was skipped. -/
def allFailed (t : List AttemptOutcome) : Bool :=
  t.all (fun o => !isOkOutcome o)

/-- The `last_error` update an attempt outcome causes (`none` = no
update: a skipped candidate or a success). -/
def errOf : AttemptOutcome → Option LastErr
  | .skip => none
  | .keyFail e _ => some (.keyErr e)
  | .fail msg _ => some (.excMsg msg)
  | .ok _ _ => none

/-- The value of `last_error` after the trace, starting from `acc`: the
chronologically last failure observed, or `acc` when the trace holds
none. -/
def latestErr (acc : Option LastErr) (t : List AttemptOutcome) : Option LastErr :=
  t.foldl (fun a o => match errOf o with | some e => some e | none => a) acc

/-! ### Supporting lemmas -/

/-- Writing a pool for `p` and reading `p` back gives that pool. -/
theorem lookupProvider_setProvider (st : Providers) (p : String) (q : Pool) :
    lookupProvider (setProvider st p q) p = some q := by
  induction st with
  | nil => simp [setProvider, lookupProvider, List.find?]
  | cons e rest ih =>
    obtain ⟨p1, q1⟩ := e
    by_cases h : p1 == p
    · simp [setProvider, h, lookupProvider, List.find?]
    · simp only [setProvider, h, if_false]
      simpa [lookupProvider, List.find?, h] using ih

/-- A provider absent from the dictionary is absent from
`get_available_providers`. -/
theorem not_mem_available_of_lookup_none (st : Providers) (p : String)
    (h : lookupProvider st p = none) : p ∉ get_available_providers st := by
  intro hp
  obtain ⟨e, he, hep⟩ := List.mem_map.mp hp
  have : st.find? (fun e => e.1 == p) = none := by
    cases hfind : st.find? (fun e => e.1 == p) with
    | none => rfl
    | some v => simp [lookupProvider, hfind] at h
  have := List.find?_eq_none.mp this e he
  simp [hep] at this

/-! ### Claim theorems -/

/-- C1: the claim says a checkout for a provider with configured
credentials that are all currently checked out waits (up to the
30-second timeout) instead of failing with `PoolEmpty`.  The code
contradicts this (and the docstring of its own `NoKeysAvailableError`,
"Raised when no API keys are configured for a provider"): `get_key`
raises `NoKeysAvailableError` whenever the queue is empty at entry,
including when the only configured credential is merely checked out.
Here: one credential is loaded for `google`, one checkout succeeds and
holds it, and the next checkout fails immediately with `poolEmpty`. -/
theorem C1_all_busy_raises_poolEmpty :
    load_provider_keys [] "google" ["k1"] = [("google", ["k1"])] ∧
    get_key [("google", ["k1"])] "google" = .ok ("k1", [("google", [])]) ∧
    get_key [("google", [])] "google" = .error .poolEmpty :=
  ⟨rfl, rfl, rfl⟩

/-- C2: the claim says an error whose message contains `"api key"`
case-insensitively is classified as an authentication failure and the
credential retired.  The code tests `"API key" in str(e).lower()`: the
needle keeps its capitals while the haystack is lowercased, so this
disjunct can never fire.  For the message `"Invalid API key"` the spec
classification is auth-failure, but `is_auth_error` computes `false` and
the gateway loop releases the credential back into the pool (third
conjunct: the pool after the failed attempt again holds the key). -/
theorem C2_api_key_heuristic_never_fires :
    is_auth_error "Invalid API key" = false ∧
    specAuthClassification "Invalid API key" = true ∧
    attemptModel (fun _ _ => .raiseMsg "Invalid API key") ["google"]
        [("google", ["k1"])] "gemini-2.5-pro"
      = .fail "Invalid API key" [("google", ["k1"])] := by
  refine ⟨by decide, by decide, ?_⟩
  decide

/-- C6: calling the gateway with a group name that is not a key of
`MODEL_GROUPS` raises the unknown-group `ValueError` immediately: the
key-manager state is untouched and zero `get_key` calls are performed. -/
theorem C6_unknown_group_zero_checkouts (oracle : Oracle) (st : Providers)
    (g : String) (h : MODEL_GROUPS.find? (fun e => e.1 == g) = none) :
    gateway_call oracle st g = (.error (.unknownGroup g), st, 0) := by
  have hg : get_model_group g = [] := by
    unfold get_model_group; rw [h]; rfl
  simp [gateway_call, hg]

/-- Witness for C6 at the concrete unknown group name
`"no_such_group"`. -/
theorem C6_witness :
    gateway_call (fun _ _ => .success "ok") [("google", ["k1"])] "no_such_group"
      = (.error (.unknownGroup "no_such_group"), [("google", ["k1"])], 0) :=
  C6_unknown_group_zero_checkouts (fun _ _ => .success "ok")
    [("google", ["k1"])] "no_such_group" rfl

/-- The caller-supplied dictionary used in the C7 counterexample: the
caller passes `model_name="caller-chosen"` as a keyword option. -/
def kwargsCx : String → Option String :=
  fun k => if k == "model_name" then some "caller-chosen" else none

/-- C7 counterexample: the claim says no caller-supplied key is silently
overridden, but the merge writes `"model_name": model_name` after
`**kwargs`, so a caller-supplied `model_name` option is replaced by the
candidate's model name. -/
theorem C7_counterexample :
    kwargsCx "model_name" = some "caller-chosen" ∧
    call_params (fun _ => none) kwargsCx "the prompt" "gemini-2.5-pro" "model_name"
      = some "gemini-2.5-pro" :=
  ⟨rfl, rfl⟩

/-- C7 (amended): for every key other than the two literals
`"model_name"` and `"prompt"` (the latter can never be caller-supplied,
see `call_params`), the merged options map the key to the caller-supplied
value when one exists, and to the candidate metadata value otherwise; a
caller-supplied `model_name` is always overridden by the candidate's
model name. -/
theorem C7_merge_preserves_other_keys {V : Type}
    (modelDetails kwargs : String → Option V) (prompt modelName : V) (k : String)
    (h1 : (k == "model_name") = false) (h2 : (k == "prompt") = false) :
    call_params modelDetails kwargs prompt modelName k
        = (match kwargs k with | some v => some v | none => modelDetails k) ∧
    call_params modelDetails kwargs prompt modelName "model_name" = some modelName := by
  constructor
  · simp [call_params, h1, h2]
  · simp [call_params]

/-- Witness for C7's amended theorem at the concrete key
`"temperature"`, supplied by the caller with value `"0.2"`. -/
theorem C7_witness :
    call_params (fun _ => none)
        (fun k => if k == "temperature" then some "0.2" else none)
        "the prompt" "gemini-2.5-pro" "temperature"
      = (match (if ("temperature" == "temperature") then some "0.2" else none : Option String) with
         | some v => some v
         | none => (fun _ => (none : Option String)) "temperature") ∧
    call_params (fun _ => none)
        (fun k => if k == "temperature" then some "0.2" else none)
        "the prompt" "gemini-2.5-pro" "model_name" = some "gemini-2.5-pro" :=
  C7_merge_preserves_other_keys (fun _ => none)
    (fun k => if k == "temperature" then some "0.2" else none)
    "the prompt" "gemini-2.5-pro" "temperature" rfl rfl

/-- C8 counterexample: the claim says a provider whose credential source
yields zero credentials is still registered, with an empty pool.  In the
code the `if keys:` guard skips registration entirely, so after loading
zero keys for `"newprov"` the provider is absent from the dictionary
(lookup gives `none`, not `some []`). -/
theorem C8_counterexample :
    lookupProvider (load_provider_keys [] "newprov" []) "newprov" = none :=
  rfl

/-- C8 (amended): loading a provider whose source yields zero
credentials does not fail and leaves the providers dictionary untouched
-- the provider is *not* registered (no empty pool is created).  A
subsequent checkout on it still yields `PoolEmpty`, and the provider
list still excludes it. -/
theorem C8_zero_keys_not_registered (st : Providers) (p : String)
    (h : lookupProvider st p = none) :
    load_provider_keys st p [] = st ∧
    get_key (load_provider_keys st p []) p = .error .poolEmpty ∧
    p ∉ get_available_providers (load_provider_keys st p []) := by
  have hload : load_provider_keys st p [] = st := by simp [load_provider_keys]
  refine ⟨hload, ?_, ?_⟩
  · rw [hload]; unfold get_key; rw [h]
  · rw [hload]; exact not_mem_available_of_lookup_none st p h

/-- Witness for C8's amended theorem: provider `"newprov"` with zero
keys, against a state that has one other provider. -/
theorem C8_witness :
    load_provider_keys [("google", ["k1"])] "newprov" [] = [("google", ["k1"])] ∧
    get_key (load_provider_keys [("google", ["k1"])] "newprov" []) "newprov"
      = .error .poolEmpty ∧
    "newprov" ∉ get_available_providers
        (load_provider_keys [("google", ["k1"])] "newprov" []) :=
  C8_zero_keys_not_registered [("google", ["k1"])] "newprov" rfl

/-- C10: releasing a key for a provider with no registered pool (with or
without the permanently-invalid flag) is a silent no-op: the function
returns normally (it is total) and the providers dictionary -- hence
every registered pool -- is unchanged. -/
theorem C10_release_unknown_provider_noop (st : Providers) (p k : String)
    (b : Bool) (h : lookupProvider st p = none) :
    release_key st p k b = st := by
  unfold release_key; rw [h]

/-- Witness for C10 at a concrete unregistered provider name. -/
theorem C10_witness :
    release_key [("google", ["k1"])] "unregistered" "k9" true
      = [("google", ["k1"])] :=
  C10_release_unknown_provider_noop [("google", ["k1"])] "unregistered" "k9"
    true rfl

/-! ### Deduplication and FIFO issuance (C9) -/

/-- `dedupFirstAux` only depends on the membership of `seen`. -/
theorem dedupFirstAux_congr (l : List String) :
    ∀ seen seen1, (∀ a, a ∈ seen ↔ a ∈ seen1) →
      dedupFirstAux seen l = dedupFirstAux seen1 l := by
  induction l with
  | nil => intro seen seen1 _; rfl
  | cons k rest ih =>
    intro seen seen1 hs
    simp only [dedupFirstAux]
    by_cases hk : k ∈ seen
    · rw [if_pos hk, if_pos ((hs k).mp hk)]
      exact ih seen seen1 hs
    · rw [if_neg hk, if_neg (fun h => hk ((hs k).mpr h))]
      have : ∀ a, a ∈ k :: seen ↔ a ∈ k :: seen1 := by
        intro a; simp [List.mem_cons, hs a]
      rw [ih (k :: seen) (k :: seen1) this]

/-- Membership in the deduplicated list. -/
theorem mem_dedupFirstAux (a : String) (l : List String) :
    ∀ seen, a ∈ dedupFirstAux seen l ↔ a ∈ l ∧ a ∉ seen := by
  induction l with
  | nil => intro seen; simp [dedupFirstAux]
  | cons k rest ih =>
    intro seen
    by_cases hk : k ∈ seen
    · rw [show dedupFirstAux seen (k :: rest) = dedupFirstAux seen rest from by
        simp [dedupFirstAux, hk]]
      rw [ih seen]
      constructor
      · rintro ⟨h1, h2⟩; exact ⟨List.mem_cons_of_mem _ h1, h2⟩
      · rintro ⟨h1, h2⟩
        rcases List.mem_cons.mp h1 with h | h
        · exact absurd (h ▸ hk) h2
        · exact ⟨h, h2⟩
    · rw [show dedupFirstAux seen (k :: rest) = k :: dedupFirstAux (k :: seen) rest
        from by simp [dedupFirstAux, hk]]
      rw [List.mem_cons, ih (k :: seen)]
      constructor
      · rintro (h | ⟨h1, h2⟩)
        · exact ⟨h ▸ List.mem_cons_self k rest, h ▸ hk⟩
        · exact ⟨List.mem_cons_of_mem _ h1, fun hs => h2 (List.mem_cons_of_mem _ hs)⟩
      · rintro ⟨h1, h2⟩
        by_cases hak : a = k
        · exact Or.inl hak
        · rcases List.mem_cons.mp h1 with h | h
          · exact absurd h hak
          · refine Or.inr ⟨h, fun hs => ?_⟩
            rcases List.mem_cons.mp hs with h3 | h3
            · exact hak h3
            · exact h2 h3

/-- The deduplicated list has no duplicates. -/
theorem nodup_dedupFirstAux (l : List String) :
    ∀ seen, (dedupFirstAux seen l).Nodup := by
  induction l with
  | nil => intro seen; simp [dedupFirstAux]
  | cons k rest ih =>
    intro seen
    by_cases hk : k ∈ seen
    · simpa [dedupFirstAux, hk] using ih seen
    · rw [show dedupFirstAux seen (k :: rest) = k :: dedupFirstAux (k :: seen) rest
        from by simp [dedupFirstAux, hk]]
      rw [List.nodup_cons]
      refine ⟨fun h => ?_, ih (k :: seen)⟩
      exact ((mem_dedupFirstAux k rest (k :: seen)).mp h).2 (List.mem_cons_self k seen)

/-- The deduplicated list is a sublist of the original. -/
theorem dedupFirstAux_sublist (l : List String) :
    ∀ seen, List.Sublist (dedupFirstAux seen l) l := by
  induction l with
  | nil => intro seen; simp [dedupFirstAux]
  | cons k rest ih =>
    intro seen
    by_cases hk : k ∈ seen
    · rw [show dedupFirstAux seen (k :: rest) = dedupFirstAux seen rest from by
        simp [dedupFirstAux, hk]]
      exact List.sublist_cons_of_sublist k (ih seen)
    · rw [show dedupFirstAux seen (k :: rest) = k :: dedupFirstAux (k :: seen) rest
        from by simp [dedupFirstAux, hk]]
      exact List.Sublist.cons₂ k (ih (k :: seen))

/-- Extending `seen` by `k` is the same as filtering `k` out of the
input first. -/
theorem dedupFirstAux_cons_seen (k : String) (l : List String) :
    ∀ seen, dedupFirstAux (k :: seen) l
      = dedupFirstAux seen (l.filter (fun y => y != k)) := by
  induction l with
  | nil => intro seen; rfl
  | cons a rest ih =>
    intro seen
    by_cases hak : a = k
    · subst hak
      have : (a :: rest).filter (fun y => y != a) = rest.filter (fun y => y != a) := by
        simp [List.filter]
      rw [this, show dedupFirstAux (a :: seen) (a :: rest)
          = dedupFirstAux (a :: seen) rest from by
        simp [dedupFirstAux]]
      exact ih seen
    · have hfil : (a :: rest).filter (fun y => y != k)
          = a :: rest.filter (fun y => y != k) := by
        have hbne : (a != k) = true := by simp [bne, hak]
        simp [List.filter, hbne]
      rw [hfil]
      by_cases ha : a ∈ seen
      · rw [show dedupFirstAux (k :: seen) (a :: rest)
            = dedupFirstAux (k :: seen) rest from by
          simp [dedupFirstAux, List.mem_cons, ha]]
        rw [show dedupFirstAux seen (a :: rest.filter (fun y => y != k))
            = dedupFirstAux seen (rest.filter (fun y => y != k)) from by
          simp [dedupFirstAux, ha]]
        exact ih seen
      · have hnot : a ∉ k :: seen := by
          intro h; rcases List.mem_cons.mp h with h | h
          · exact hak h
          · exact ha h
        rw [show dedupFirstAux (k :: seen) (a :: rest)
            = a :: dedupFirstAux (a :: k :: seen) rest from by
          simp [dedupFirstAux, hnot]]
        rw [show dedupFirstAux seen (a :: rest.filter (fun y => y != k))
            = a :: dedupFirstAux (a :: seen) (rest.filter (fun y => y != k)) from by
          simp [dedupFirstAux, ha]]
        have hperm : ∀ b, b ∈ a :: k :: seen ↔ b ∈ k :: a :: seen := by
          intro b; simp [List.mem_cons]; tauto
        rw [dedupFirstAux_congr rest _ _ hperm, ih (a :: seen)]

/-- Successively applied checkouts: the keys `get_key` hands out, in
order, when `n` checkouts are performed with no interleaved release. -/
def issueSeq (st : Providers) (p : String) : Nat → List String
  | 0 => []
  | n + 1 =>
    match get_key st p with
    | .error _ => []
    | .ok (k, st1) => k :: issueSeq st1 p n

/-- `issueSeq` walks the pool front to back. -/
theorem issueSeq_eq_take (p : String) :
    ∀ (n : Nat) (st : Providers) (q : Pool), lookupProvider st p = some q →
      issueSeq st p n = q.take n := by
  intro n
  induction n with
  | zero => intro st q _; rfl
  | succ m ih =>
    intro st q hq
    cases q with
    | nil =>
      have hget : get_key st p = .error .poolEmpty := by unfold get_key; rw [hq]
      simp [issueSeq, hget]
    | cons k rest =>
      have hget : get_key st p = .ok (k, setProvider st p rest) := by
        unfold get_key; rw [hq]
      simp only [issueSeq, hget, List.take]
      rw [ih (setProvider st p rest) rest (lookupProvider_setProvider st p rest)]

/-- C9: (1) loading a fresh provider stores exactly
`list(dict.fromkeys(keys))`; (2) that list is duplicate-free, a sublist
of the source list, and has the same members; (3) it keeps the *first*
occurrence of each key (recursive characterisation: head first, then the
dedup of the tail with the head filtered out); (4) issuance is FIFO: a
released key goes to the back of the queue, and iterated checkout
returns every key that was `Available` at release time before it. -/
theorem C9_dedup_load_and_fifo_issue :
    (∀ st p keys, ¬ keys = [] → lookupProvider st p = none →
        lookupProvider (load_provider_keys st p keys) p = some (dedupFirst keys)) ∧
    (∀ keys : List String, (dedupFirst keys).Nodup ∧
        List.Sublist (dedupFirst keys) keys ∧
        (∀ a, a ∈ dedupFirst keys ↔ a ∈ keys)) ∧
    (∀ (x : String) (xs : List String),
        dedupFirst (x :: xs) = x :: dedupFirst (xs.filter (fun y => y != x))) ∧
    (∀ st p q k, lookupProvider st p = some q →
        lookupProvider (release_key st p k false) p = some (q ++ [k]) ∧
        issueSeq (release_key st p k false) p (q.length + 1) = q ++ [k]) := by
  refine ⟨?_, ?_, ?_, ?_⟩
  · intro st p keys hne h
    rw [show load_provider_keys st p keys
        = setProvider st p ((lookupProvider st p).getD [] ++ dedupFirst keys) from by
      simp [load_provider_keys, hne]]
    rw [h]
    simpa using lookupProvider_setProvider st p (dedupFirst keys)
  · intro keys
    refine ⟨nodup_dedupFirstAux keys [], dedupFirstAux_sublist keys [], fun a => ?_⟩
    simpa using mem_dedupFirstAux a keys []
  · intro x xs
    rw [show dedupFirst (x :: xs) = x :: dedupFirstAux [x] xs from by
      simp [dedupFirst, dedupFirstAux]]
    rw [show dedupFirstAux [x] xs = dedupFirst (xs.filter (fun y => y != x)) from
      dedupFirstAux_cons_seen x xs []]
  · intro st p q k hq
    have hrel : release_key st p k false = setProvider st p (q ++ [k]) := by
      unfold release_key; rw [hq]; rfl
    rw [hrel]
    refine ⟨lookupProvider_setProvider st p (q ++ [k]), ?_⟩
    rw [issueSeq_eq_take p (q.length + 1) _ (q ++ [k])
      (lookupProvider_setProvider st p (q ++ [k]))]
    rw [show q.length + 1 = (q ++ [k]).length from by simp]
    exact List.take_length (q ++ [k])

/-- Witness for C9: loading `["k1", "k2", "k1"]` stores `["k1", "k2"]`,
and after releasing `"k3"` into a pool holding `["k1", "k2"]` the next
three checkouts issue `"k1"`, `"k2"`, `"k3"` in that order. -/
theorem C9_witness :
    lookupProvider (load_provider_keys [] "google" ["k1", "k2", "k1"]) "google"
      = some ["k1", "k2"] ∧
    lookupProvider (release_key [("google", ["k1", "k2"])] "google" "k3" false)
        "google" = some ["k1", "k2", "k3"] ∧
    issueSeq (release_key [("google", ["k1", "k2"])] "google" "k3" false)
        "google" 3 = ["k1", "k2", "k3"] := by
  have h1 := C9_dedup_load_and_fifo_issue.1 [] "google" ["k1", "k2", "k1"]
    (by decide) rfl
  have h4 := C9_dedup_load_and_fifo_issue.2.2.2 [("google", ["k1", "k2"])]
    "google" ["k1", "k2"] "k3" rfl
  exact ⟨h1, h4.1, h4.2⟩

/-! ### Ghost pool: correspondence with the code and conservation -/

/-- A ghost checkout performs exactly what `get_key` performs on the
queue: it pops the front key. -/
theorem ghost_checkout_matches_code (p : String) (s s1 : GhostPool)
    (h : ghostStep s .checkout = some s1) :
    get_key [(p, s.avail)] p = .ok (s.avail.headD "", [(p, s1.avail)]) := by
  cases hA : s.avail with
  | nil => simp [ghostStep, hA] at h
  | cons k rest =>
    have h1 : s1 = ⟨rest, k :: s.checkedOut, s.retired⟩ := by
      simp [ghostStep, hA] at h; exact h.symm
    subst h1
    simp [get_key, lookupProvider, List.find?, setProvider, hA]

/-- A ghost release performs exactly what
`release_key(p, k, is_permanently_invalid=False)` performs on the queue:
it appends the key at the back. -/
theorem ghost_release_matches_code (p k : String) (s s1 : GhostPool)
    (h : ghostStep s (.release k) = some s1) :
    release_key [(p, s.avail)] p k false = [(p, s1.avail)] := by
  by_cases hm : k ∈ s.checkedOut
  · have h1 : s1 = ⟨s.avail ++ [k], s.checkedOut.erase k, s.retired⟩ := by
      simp [ghostStep, hm] at h; exact h.symm
    subst h1
    simp [release_key, lookupProvider, List.find?, setProvider]
  · simp [ghostStep, hm] at h

/-- A ghost retirement performs exactly what
`release_key(p, k, is_permanently_invalid=True)` performs on the queue:
nothing (the key is only dropped from circulation). -/
theorem ghost_retire_matches_code (p k : String) (s s1 : GhostPool)
    (h : ghostStep s (.retire k) = some s1) :
    release_key [(p, s.avail)] p k true = [(p, s.avail)] ∧ s1.avail = s.avail := by
  by_cases hm : k ∈ s.checkedOut
  · have h1 : s1 = ⟨s.avail, s.checkedOut.erase k, k :: s.retired⟩ := by
      simp [ghostStep, hm] at h; exact h.symm
    subst h1
    constructor
    · simp [release_key, lookupProvider, List.find?]
    · rfl
  · simp [ghostStep, hm] at h

/-- One ghost step conserves, for every key, the total number of its
occurrences across the three states. -/
theorem ghostStep_count (s s1 : GhostPool) (op : Op)
    (h : ghostStep s op = some s1) (k : String) :
    s1.avail.count k + s1.checkedOut.count k + s1.retired.count k
      = s.avail.count k + s.checkedOut.count k + s.retired.count k := by
  cases op with
  | checkout =>
    cases hA : s.avail with
    | nil => simp [ghostStep, hA] at h
    | cons k0 rest =>
      have h1 : s1 = ⟨rest, k0 :: s.checkedOut, s.retired⟩ := by
        simp [ghostStep, hA] at h; exact h.symm
      subst h1
      by_cases hk : k0 = k
      · subst hk
        simp [List.count_cons]
        omega
      · simp [List.count_cons, hk]
  | release k0 =>
    by_cases hm : k0 ∈ s.checkedOut
    · have h1 : s1 = ⟨s.avail ++ [k0], s.checkedOut.erase k0, s.retired⟩ := by
        simp [ghostStep, hm] at h; exact h.symm
      subst h1
      have hpos : 0 < s.checkedOut.count k0 := List.count_pos_iff.mpr hm
      by_cases hk : k0 = k
      · subst hk
        simp [List.count_append, List.count_erase]
        omega
      · have : (s.checkedOut.erase k0).count k = s.checkedOut.count k := by
          rw [List.count_erase]
          simp [hk]
        simp [List.count_append, this, List.count_cons, hk]
    · simp [ghostStep, hm] at h
  | retire k0 =>
    by_cases hm : k0 ∈ s.checkedOut
    · have h1 : s1 = ⟨s.avail, s.checkedOut.erase k0, k0 :: s.retired⟩ := by
        simp [ghostStep, hm] at h; exact h.symm
      subst h1
      have hpos : 0 < s.checkedOut.count k0 := List.count_pos_iff.mpr hm
      by_cases hk : k0 = k
      · subst hk
        simp [List.count_erase, List.count_cons]
        omega
      · have : (s.checkedOut.erase k0).count k = s.checkedOut.count k := by
          rw [List.count_erase]
          simp [hk]
        simp [this, List.count_cons, hk]
    · simp [ghostStep, hm] at h

/-- One ghost step conserves the total number of credentials. -/
theorem ghostStep_length (s s1 : GhostPool) (op : Op)
    (h : ghostStep s op = some s1) :
    s1.avail.length + s1.checkedOut.length + s1.retired.length
      = s.avail.length + s.checkedOut.length + s.retired.length := by
  cases op with
  | checkout =>
    cases hA : s.avail with
    | nil => simp [ghostStep, hA] at h
    | cons k0 rest =>
      have h1 : s1 = ⟨rest, k0 :: s.checkedOut, s.retired⟩ := by
        simp [ghostStep, hA] at h; exact h.symm
      subst h1
      simp; omega
  | release k0 =>
    by_cases hm : k0 ∈ s.checkedOut
    · have h1 : s1 = ⟨s.avail ++ [k0], s.checkedOut.erase k0, s.retired⟩ := by
        simp [ghostStep, hm] at h; exact h.symm
      subst h1
      have hpos : 0 < s.checkedOut.length := List.length_pos_of_mem hm
      simp [List.length_erase_of_mem hm]
      omega
    · simp [ghostStep, hm] at h
  | retire k0 =>
    by_cases hm : k0 ∈ s.checkedOut
    · have h1 : s1 = ⟨s.avail, s.checkedOut.erase k0, k0 :: s.retired⟩ := by
        simp [ghostStep, hm] at h; exact h.symm
      subst h1
      have hpos : 0 < s.checkedOut.length := List.length_pos_of_mem hm
      simp [List.length_erase_of_mem hm]
      omega
    · simp [ghostStep, hm] at h

/-- Conservation of per-key counts along a run. -/
theorem runOps_count (ops : List Op) :
    ∀ s s1, runOps s ops = some s1 → ∀ k,
      s1.avail.count k + s1.checkedOut.count k + s1.retired.count k
        = s.avail.count k + s.checkedOut.count k + s.retired.count k := by
  induction ops with
  | nil =>
    intro s s1 h k
    simp [runOps] at h
    subst h; rfl
  | cons op rest ih =>
    intro s s1 h k
    cases hstep : ghostStep s op with
    | none => simp [runOps, hstep] at h
    | some s2 =>
      have h2 : runOps s2 rest = some s1 := by simpa [runOps, hstep] using h
      rw [ih s2 s1 h2 k, ghostStep_count s s2 op hstep k]

/-- Conservation of the total credential count along a run. -/
theorem runOps_length (ops : List Op) :
    ∀ s s1, runOps s ops = some s1 →
      s1.avail.length + s1.checkedOut.length + s1.retired.length
        = s.avail.length + s.checkedOut.length + s.retired.length := by
  induction ops with
  | nil =>
    intro s s1 h
    simp [runOps] at h
    subst h; rfl
  | cons op rest ih =>
    intro s s1 h
    cases hstep : ghostStep s op with
    | none => simp [runOps, hstep] at h
    | some s2 =>
      have h2 : runOps s2 rest = some s1 := by simpa [runOps, hstep] using h
      rw [ih s2 s1 h2, ghostStep_length s s2 op hstep]

/-- Once a key is retired and out of the other two states, any further
legal operations keep it retired and keep it out of the other two
states. -/
theorem runOps_retired_persists (ops : List Op) :
    ∀ s s1, runOps s ops = some s1 → ∀ k,
      k ∈ s.retired → k ∉ s.checkedOut → k ∉ s.avail →
      k ∈ s1.retired ∧ k ∉ s1.checkedOut ∧ k ∉ s1.avail := by
  induction ops with
  | nil =>
    intro s s1 h k h1 h2 h3
    simp [runOps] at h
    subst h; exact ⟨h1, h2, h3⟩
  | cons op rest ih =>
    intro s s1 h k h1 h2 h3
    cases hstep : ghostStep s op with
    | none => simp [runOps, hstep] at h
    | some s2 =>
      have h4 : runOps s2 rest = some s1 := by simpa [runOps, hstep] using h
      have hstep1 : k ∈ s2.retired ∧ k ∉ s2.checkedOut ∧ k ∉ s2.avail := by
        cases op with
        | checkout =>
          cases hA : s.avail with
          | nil => simp [ghostStep, hA] at hstep
          | cons k0 tl =>
            rw [hA] at h3
            have hs2 : s2 = ⟨tl, k0 :: s.checkedOut, s.retired⟩ := by
              simp [ghostStep, hA] at hstep; exact hstep.symm
            subst hs2
            have hk0 : ¬ k = k0 := fun hkk => h3 (hkk ▸ List.mem_cons_self k0 tl)
            refine ⟨h1, ?_, fun hmem => h3 (List.mem_cons_of_mem k0 hmem)⟩
            intro hmem
            rcases List.mem_cons.mp hmem with hkk | hmem1
            · exact hk0 hkk
            · exact h2 hmem1
        | release k0 =>
          by_cases hm : k0 ∈ s.checkedOut
          · have hs2 : s2 = ⟨s.avail ++ [k0], s.checkedOut.erase k0, s.retired⟩ := by
              simp [ghostStep, hm] at hstep; exact hstep.symm
            subst hs2
            have hk0 : ¬ k = k0 := fun hkk => h2 (hkk ▸ hm)
            refine ⟨h1, ?_, ?_⟩
            · intro hmem
              exact h2 (List.mem_of_mem_erase hmem)
            · intro hmem
              rcases List.mem_append.mp hmem with hmem1 | hmem1
              · exact h3 hmem1
              · exact hk0 (List.mem_singleton.mp hmem1)
          · simp [ghostStep, hm] at hstep
        | retire k0 =>
          by_cases hm : k0 ∈ s.checkedOut
          · have hs2 : s2 = ⟨s.avail, s.checkedOut.erase k0, k0 :: s.retired⟩ := by
              simp [ghostStep, hm] at hstep; exact hstep.symm
            subst hs2
            refine ⟨List.mem_cons_of_mem k0 h1, ?_, h3⟩
            intro hmem
            exact h2 (List.mem_of_mem_erase hmem)
          · simp [ghostStep, hm] at hstep
      exact ih s2 s1 h4 k hstep1.1 hstep1.2.1 hstep1.2.2

/-- C4: along every legal operation sequence (checkout only from a
non-empty queue; release and retire only of a currently checked-out
credential), per-key occurrence counts across
`Available`/`CheckedOut`/`Retired` are conserved, the three state sizes
always sum to the number of credentials originally loaded, and every
loaded credential is in exactly one of the three states. -/
theorem C4_pool_state_partition (keys : List String) (ops : List Op)
    (s : GhostPool) (h : runOps (initGhost keys) ops = some s) :
    (∀ k, s.avail.count k + s.checkedOut.count k + s.retired.count k
        = (dedupFirst keys).count k) ∧
    (s.avail.length + s.checkedOut.length + s.retired.length
        = (dedupFirst keys).length) ∧
    (∀ k, k ∈ dedupFirst keys →
      (k ∈ s.avail ∧ k ∉ s.checkedOut ∧ k ∉ s.retired) ∨
      (k ∉ s.avail ∧ k ∈ s.checkedOut ∧ k ∉ s.retired) ∨
      (k ∉ s.avail ∧ k ∉ s.checkedOut ∧ k ∈ s.retired)) := by
  have hcount : ∀ k, s.avail.count k + s.checkedOut.count k + s.retired.count k
      = (dedupFirst keys).count k := by
    intro k
    simpa [initGhost] using runOps_count ops (initGhost keys) s h k
  have hlen : s.avail.length + s.checkedOut.length + s.retired.length
      = (dedupFirst keys).length := by
    simpa [initGhost] using runOps_length ops (initGhost keys) s h
  refine ⟨hcount, hlen, fun k hk => ?_⟩
  have h1 : (dedupFirst keys).count k = 1 :=
    List.count_eq_one_of_mem (nodup_dedupFirstAux keys []) hk
  have hsum := hcount k
  rw [h1] at hsum
  by_cases hA : k ∈ s.avail <;> by_cases hB : k ∈ s.checkedOut <;>
    by_cases hC : k ∈ s.retired
  · have := List.count_pos_iff.mpr hA
    have := List.count_pos_iff.mpr hB
    omega
  · have := List.count_pos_iff.mpr hA
    have := List.count_pos_iff.mpr hB
    omega
  · have := List.count_pos_iff.mpr hA
    have := List.count_pos_iff.mpr hC
    omega
  · exact Or.inl ⟨hA, hB, hC⟩
  · have := List.count_pos_iff.mpr hB
    have := List.count_pos_iff.mpr hC
    omega
  · exact Or.inr (Or.inl ⟨hA, hB, hC⟩)
  · exact Or.inr (Or.inr ⟨hA, hB, hC⟩)
  · have h0A : s.avail.count k = 0 := List.count_eq_zero.mpr hA
    have h0B : s.checkedOut.count k = 0 := List.count_eq_zero.mpr hB
    have h0C : s.retired.count k = 0 := List.count_eq_zero.mpr hC
    omega

/-- Witness for C4: two keys loaded, then checkout, retire of the first,
checkout, release of the second; the final ghost state is
`⟨["k2"], [], ["k1"]⟩`. -/
theorem C4_witness :
    (∀ k, (["k2"] : List String).count k + ([] : List String).count k
        + (["k1"] : List String).count k = (dedupFirst ["k1", "k2"]).count k) ∧
    ((["k2"] : List String).length + ([] : List String).length
        + (["k1"] : List String).length = (dedupFirst ["k1", "k2"]).length) ∧
    (∀ k, k ∈ dedupFirst ["k1", "k2"] →
      (k ∈ (["k2"] : List String) ∧ k ∉ ([] : List String) ∧ k ∉ (["k1"] : List String)) ∨
      (k ∉ (["k2"] : List String) ∧ k ∈ ([] : List String) ∧ k ∉ (["k1"] : List String)) ∨
      (k ∉ (["k2"] : List String) ∧ k ∉ ([] : List String) ∧ k ∈ (["k1"] : List String))) :=
  C4_pool_state_partition ["k1", "k2"]
    [Op.checkout, Op.retire "k1", Op.checkout, Op.release "k2"]
    ⟨["k2"], [], ["k1"]⟩ (by decide)

/-- C3 counterexample: the claim says a release applied after a retire
is a no-op.  In the code nothing records retirement: after loading one
key for `google`, checking it out and retiring it, a subsequent
`release_key(google, k1, False)` puts the retired key back into the
queue, and the next checkout returns it. -/
theorem C3_counterexample :
    get_key (load_provider_keys [] "google" ["k1"]) "google"
      = .ok ("k1", [("google", [])]) ∧
    release_key [("google", [])] "google" "k1" true = [("google", [])] ∧
    release_key [("google", [])] "google" "k1" false = [("google", ["k1"])] ∧
    get_key [("google", ["k1"])] "google" = .ok ("k1", [("google", [])]) :=
  ⟨rfl, rfl, rfl, rfl⟩

/-- C3 (amended): as long as release and retire are applied only to
currently checked-out credentials, a retired credential never reappears:
it is never `Available` again, every later reachable state keeps it
retired, and no later checkout returns it (the key a checkout returns is
the head of the `Available` queue).  The no-op idempotency of the claim
does not hold (see the counterexample): a release applied to an
already-retired key re-enqueues it. -/
theorem C3_retired_never_reissued (keys : List String) (ops : List Op)
    (s : GhostPool) (h : runOps (initGhost keys) ops = some s)
    (k : String) (hk : k ∈ s.retired) :
    k ∉ s.avail ∧
    (∀ ops1 s1, runOps s ops1 = some s1 →
      k ∈ s1.retired ∧ k ∉ s1.avail ∧ ¬ s1.avail.head? = some k) := by
  have hcount := runOps_count ops (initGhost keys) s h k
  have hle : (dedupFirst keys).count k ≤ 1 :=
    List.nodup_iff_count_le_one.mp (nodup_dedupFirstAux keys []) k
  have hpos : 0 < s.retired.count k := List.count_pos_iff.mpr hk
  have hA : s.avail.count k = 0 := by
    simp [initGhost] at hcount
    omega
  have hB : s.checkedOut.count k = 0 := by
    simp [initGhost] at hcount
    omega
  have hnA : k ∉ s.avail := by
    intro hmem; have := List.count_pos_iff.mpr hmem; omega
  have hnB : k ∉ s.checkedOut := by
    intro hmem; have := List.count_pos_iff.mpr hmem; omega
  refine ⟨hnA, fun ops1 s1 h1 => ?_⟩
  obtain ⟨p1, p2, p3⟩ := runOps_retired_persists ops1 s s1 h1 k hk hnB hnA
  refine ⟨p1, p3, fun hhead => ?_⟩
  exact p3 (List.mem_of_mem_head? hhead)

/-- Witness for C3's amended theorem: one key loaded, checked out and
retired; afterwards a further legal checkout/release run on a second key
never resurfaces it. -/
theorem C3_witness :
    "k1" ∉ (⟨["k2"], [], ["k1"]⟩ : GhostPool).avail ∧
    (∀ ops1 s1,
      runOps (⟨["k2"], [], ["k1"]⟩ : GhostPool) ops1 = some s1 →
      "k1" ∈ s1.retired ∧ "k1" ∉ s1.avail ∧ ¬ s1.avail.head? = some "k1") :=
  C3_retired_never_reissued ["k1", "k2"]
    [Op.checkout, Op.retire "k1"] ⟨["k2"], [], ["k1"]⟩ (by decide)
    "k1" (by decide)

/-! ### Exhaustion of the candidate list (C5) -/

/-- When every attempt in the trace fails or is skipped, the candidate
loop ends with the terminal error carrying the chronologically last
observed failure (or the initial accumulator when every candidate was
skipped); no intermediate failure escapes the loop. -/
theorem callLoop_exhausted (oracle : Oracle) (avail : List String) :
    ∀ (ms : List String) (st : Providers) (last : Option LastErr) (n : Nat),
      allFailed (attemptTrace oracle avail st ms) = true →
      (callLoop oracle avail last st n ms).1
        = .error (latestErr last (attemptTrace oracle avail st ms)) := by
  intro ms
  induction ms with
  | nil => intro st last n _; rfl
  | cons m rest ih =>
    intro st last n h
    cases hA : attemptModel oracle avail st m with
    | skip =>
      rw [show attemptTrace oracle avail st (m :: rest)
          = .skip :: attemptTrace oracle avail st rest from by
        simp [attemptTrace, hA]]
      rw [show attemptTrace oracle avail st (m :: rest)
          = .skip :: attemptTrace oracle avail st rest from by
        simp [attemptTrace, hA]] at h
      simp only [allFailed, List.all_cons, Bool.and_eq_true] at h
      simp only [callLoop, hA, latestErr, List.foldl, errOf]
      exact ih st last n h.2
    | keyFail e st1 =>
      rw [show attemptTrace oracle avail st (m :: rest)
          = .keyFail e st1 :: attemptTrace oracle avail st1 rest from by
        simp [attemptTrace, hA]]
      rw [show attemptTrace oracle avail st (m :: rest)
          = .keyFail e st1 :: attemptTrace oracle avail st1 rest from by
        simp [attemptTrace, hA]] at h
      simp only [allFailed, List.all_cons, Bool.and_eq_true] at h
      simp only [callLoop, hA, latestErr, List.foldl, errOf]
      exact ih st1 (some (.keyErr e)) (n + 1) h.2
    | fail msg st1 =>
      rw [show attemptTrace oracle avail st (m :: rest)
          = .fail msg st1 :: attemptTrace oracle avail st1 rest from by
        simp [attemptTrace, hA]]
      rw [show attemptTrace oracle avail st (m :: rest)
          = .fail msg st1 :: attemptTrace oracle avail st1 rest from by
        simp [attemptTrace, hA]] at h
      simp only [allFailed, List.all_cons, Bool.and_eq_true] at h
      simp only [callLoop, hA, latestErr, List.foldl, errOf]
      exact ih st1 (some (.excMsg msg)) (n + 1) h.2
    | ok text st1 =>
      rw [show attemptTrace oracle avail st (m :: rest) = [.ok text st1] from by
        simp [attemptTrace, hA]] at h
      simp [allFailed, isOkOutcome] at h

/-- C5: when every candidate of a (non-empty, known) group has been
tried and failed or been skipped, `LLMGateway.call` raises the terminal
aggregate error, and the `last_error` it references is exactly the
chronologically last failure observed across the attempts (`none` when
every candidate was skipped); every per-candidate failure before
exhaustion is absorbed by advancing the loop, never surfaced. -/
theorem C5_exhaustion_references_last_failure (oracle : Oracle)
    (st : Providers) (g : String)
    (hne : (get_model_group g).isEmpty = false)
    (hfail : allFailed (attemptTrace oracle (get_available_providers st) st
        (get_model_group g)) = true) :
    (gateway_call oracle st g).1
      = .error (.allExhausted (latestErr none
          (attemptTrace oracle (get_available_providers st) st
            (get_model_group g)))) := by
  have hloop := callLoop_exhausted oracle (get_available_providers st)
    (get_model_group g) st none 0 hfail
  rcases hres : callLoop oracle (get_available_providers st) none st 0
      (get_model_group g) with ⟨r, st1, n⟩
  rw [hres] at hloop
  simp only at hloop
  subst hloop
  simp [gateway_call, hne, hres]

/-- Witness for C5: group `weak_coding`; `groq` has one key and its
model fails with a transient 500, `mistral` has no keys and is skipped;
the terminal error carries the 500 failure. -/
theorem C5_witness :
    (gateway_call (fun _ _ => .raiseMsg "boom 500") [("groq", ["g1"])]
        "weak_coding").1
      = .error (.allExhausted (some (.excMsg "boom 500"))) := by
  have := C5_exhaustion_references_last_failure
    (fun _ _ => .raiseMsg "boom 500") [("groq", ["g1"])] "weak_coding"
    (by decide) (by decide)
  exact this.trans (congrArg (fun o => Except.error (GatewayError.allExhausted o))
    (by decide))

end LLMGW
